import Mathlib

/-!
Verification of the emotion quintile-analysis engine
(`backend/processors/sentiment_processor.py`, class `SentimentProcessor`).

The engine is shallowly embedded: times and scores are exact rationals
(the claims under scrutiny are statements at the level of exact
arithmetic), Python dictionaries with insertion order become association
lists, and the stable Python `sorted` becomes `List.insertionSort`
(which is stable for the modelled comparison relations).
-/

namespace Dialogos

/-- One emotion slot of a segment: a `(name, score)` pair, as stored in
the `sentiment_i` / `sentiment_score_i` columns of the processed frame. -/
structure Emotion where
  name : String
  score : ℚ
deriving DecidableEq, Repr

/-- A canonical segment row of the processed frame: speaker id, time
interval, utterance text and the up-to-15 ordered emotion slots. -/
structure Segment where
  speaker_id : String
  start_time : ℚ
  end_time : ℚ
  text : String
  emotions : List Emotion
deriving DecidableEq, Repr

/-- Python `int(q)` on a rational: truncation toward zero. -/
def pyTrunc (q : ℚ) : ℤ := if 0 ≤ q then ⌊q⌋ else ⌈q⌉

/-- `SentimentProcessor._determine_quintile`: bucket of a segment, from
the midpoint of its time interval.  `int(midpoint / quintile_size)`,
clamped from 5 to 4, and 0 outright when the conversation length is 0. -/
def determine_quintile (conversation_length start_time end_time : ℚ) : ℤ :=
  if conversation_length = 0 then 0
  else
    let midpoint := (start_time + end_time) / 2
    let quintile_size := conversation_length / 5
    let quintile := pyTrunc (midpoint / quintile_size)
    if quintile = 5 then 4 else quintile

/-- `sorted(..., key=score, reverse=True)` orders emotion slots by
descending score; Python's sort is stable, as is `List.insertionSort`. -/
def emotionDescOrder (a b : Emotion) : Prop := b.score ≤ a.score

instance : DecidableRel emotionDescOrder :=
  fun a b => inferInstanceAs (Decidable (b.score ≤ a.score))

instance : IsTotal Emotion emotionDescOrder := ⟨fun a b => le_total b.score a.score⟩

instance : IsTrans Emotion emotionDescOrder := ⟨fun _ _ _ h1 h2 => le_trans h2 h1⟩

/-- A raw timed span of one recognized channel: `time.begin`/`time.end`,
`text`, and the ranked list under `emotions` (prosody channel) or
`sentiment` (language channel). -/
structure Span where
  begin_time : ℚ
  end_time : ℚ
  text : String
  emotions : List Emotion
deriving DecidableEq, Repr

/-- One entry of `grouped_predictions`: a speaker `id` with its spans. -/
structure SpeakerGroup where
  id : String
  predictions : List Span
deriving DecidableEq, Repr

/-- One entry of `results.predictions`: the recognized channels under
`models.prosody.grouped_predictions` and
`models.language.grouped_predictions`, each possibly absent. -/
structure ResultItem where
  prosody : Option (List SpeakerGroup)
  language : Option (List SpeakerGroup)
deriving DecidableEq, Repr

/-- One element of the top-level predictions list: its
`results.predictions` entries. -/
structure PredItem where
  results : List ResultItem
deriving DecidableEq, Repr

abbrev Payload := List PredItem

/-- Builds the canonical segment from a span: emotion slots are sorted
descending by score (stably) and truncated to the first 15. -/
def normalizeSpan (speaker : String) (sp : Span) : Segment :=
  { speaker_id := speaker
    start_time := sp.begin_time
    end_time := sp.end_time
    text := sp.text
    emotions := (List.insertionSort emotionDescOrder sp.emotions).take 15 }

/-- The duplicate check run before a language-channel span is added:
`any(d['speaker_id'] == ... and d['start_time'] == ... and
d['end_time'] == ... for d in data)`. -/
def keyMatches (data : List Segment) (sp : String) (st et : ℚ) : Bool :=
  data.any fun d => decide (d.speaker_id = sp ∧ d.start_time = st ∧ d.end_time = et)

/-- Prosody-channel collection: every span of every speaker group is
appended to `data` unconditionally. -/
def addProsodyGroups (data : List Segment) (groups : List SpeakerGroup) :
    List Segment :=
  groups.foldl
    (fun acc g => g.predictions.foldl
      (fun acc2 sp => acc2 ++ [normalizeSpan g.id sp]) acc)
    data

/-- Language-channel collection: a span is appended only when no
already-collected segment has the same `(speaker_id, start, end)` key. -/
def addLanguageGroups (data : List Segment) (groups : List SpeakerGroup) :
    List Segment :=
  groups.foldl
    (fun acc g => g.predictions.foldl
      (fun acc2 sp =>
        if keyMatches acc2 g.id sp.begin_time sp.end_time then acc2
        else acc2 ++ [normalizeSpan g.id sp]) acc)
    data

/-- One `results.predictions` entry: the prosody channel is processed
first, then the language channel. -/
def processResultItem (data : List Segment) (r : ResultItem) : List Segment :=
  let d1 := match r.prosody with
    | some gs => addProsodyGroups data gs
    | none => data
  match r.language with
  | some gs => addLanguageGroups d1 gs
  | none => d1

/-- The whole extraction loop of `process_sentiment_data`, over every
prediction item and every result item, starting from an empty list. -/
def collectSegments (payload : Payload) : List Segment :=
  payload.foldl (fun data p => p.results.foldl processResultItem data) []

/-- `df.sort_values('start_time')` ordering relation. -/
def segStartOrder (a b : Segment) : Prop := a.start_time ≤ b.start_time

instance : DecidableRel segStartOrder :=
  fun a b => inferInstanceAs (Decidable (a.start_time ≤ b.start_time))

instance : IsTotal Segment segStartOrder := ⟨fun a b => le_total a.start_time b.start_time⟩

instance : IsTrans Segment segStartOrder := ⟨fun _ _ _ h1 h2 => le_trans h1 h2⟩

def sortByStart (data : List Segment) : List Segment :=
  List.insertionSort segStartOrder data

/-- `df['end_time'].max()`: the conversation length. -/
def maxEndTime (data : List Segment) : ℚ :=
  match data.map (fun s => s.end_time) with
  | [] => 0
  | x :: xs => xs.foldl max x

/-- First-appearance deduplication, the order in which the set of
distinct names is traversed in this model. -/
def dedupFirst (l : List String) : List String :=
  l.foldl (fun acc n => if n ∈ acc then acc else acc ++ [n]) []

/-- Every name of every occupied emotion slot, in row-then-slot order. -/
def flattenNames (segs : List Segment) : List String :=
  segs.foldr (fun s acc => s.emotions.map (fun e => e.name) ++ acc) []

/-- The distinct emotion names appearing in the table (`all_sentiments`). -/
def allNames (segs : List Segment) : List String :=
  dedupFirst (flattenNames segs)

/-- Occurrences of a name over every occupied slot of every segment
(`(df[col] == sentiment).sum()` summed over the 15 slot columns). -/
def countName (segs : List Segment) (n : String) : ℕ :=
  (segs.map (fun s => (s.emotions.filter (fun e => decide (e.name = n))).length)).sum

/-- `sentiment_counts`: each distinct name with its occurrence count. -/
def sentiment_counts (segs : List Segment) : List (String × ℕ) :=
  (allNames segs).map (fun n => (n, countName segs n))

/-- `sorted(sentiment_counts.items(), key=count, reverse=True)` order. -/
def countDescOrder (a b : String × ℕ) : Prop := b.2 ≤ a.2

instance : DecidableRel countDescOrder :=
  fun a b => inferInstanceAs (Decidable (b.2 ≤ a.2))

instance : IsTotal (String × ℕ) countDescOrder := ⟨fun a b => le_total b.2 a.2⟩

instance : IsTrans (String × ℕ) countDescOrder := ⟨fun _ _ _ h1 h2 => le_trans h2 h1⟩

def sortedCounts (segs : List Segment) : List (String × ℕ) :=
  List.insertionSort countDescOrder (sentiment_counts segs)

/-- `self.top_sentiments`: the names of the 15 most frequent emotions. -/
def top_sentiments_of (segs : List Segment) : List String :=
  ((sortedCounts segs).take 15).map (fun p => p.1)

/-- The name guard applied while accumulating weighted emotions: a name
that is a pure digit string (Python `str.isdigit`, or a numeric value,
which this string model subsumes) is relabeled `Emotion_<value>`. -/
def isDigitString (s : String) : Bool :=
  decide (s.length > 0) && s.toList.all Char.isDigit

def relabelNumeric (n : String) : String :=
  if isDigitString n then "Emotion_" ++ n else n

/-- `weighted_emotions[name] += score * weight`, on an insertion-ordered
association list standing for the Python dict. -/
def addWeighted (m : List (String × ℚ)) (n : String) (v : ℚ) :
    List (String × ℚ) :=
  if m.any (fun p => decide (p.1 = n)) then
    m.map (fun p => if p.1 = n then (p.1, p.2 + v) else p)
  else m ++ [(n, v)]

/-- `quintile_data['duration'].sum()` for one (speaker, bucket) group. -/
def totalDuration (group : List Segment) : ℚ :=
  (group.map (fun s => s.end_time - s.start_time)).sum

/-- `weight = segment_duration / total_duration if total_duration > 0 else 0`. -/
def weightOf (total : ℚ) (s : Segment) : ℚ :=
  if 0 < total then (s.end_time - s.start_time) / total else 0

/-- The inner slot loop: every occupied emotion slot of one segment
contributes `score * weight` to its (relabeled) name. -/
def segAddWeighted (m : List (String × ℚ)) (w : ℚ) (s : Segment) :
    List (String × ℚ) :=
  s.emotions.foldl (fun acc e => addWeighted acc (relabelNumeric e.name) (e.score * w)) m

/-- `weighted_emotions` for one (speaker, bucket) group of segments, in
group order. -/
def groupWeighted (group : List Segment) : List (String × ℚ) :=
  group.foldl (fun m s => segAddWeighted m (weightOf (totalDuration group) s) s) []

/-- The weights the aggregation assigns to the segments of one group. -/
def groupWeights (group : List Segment) : List ℚ :=
  group.map (weightOf (totalDuration group))

/-- Python `max(items, key=value)`: the first entry with maximal value. -/
def pyMaxBySnd : List (String × ℚ) → String × ℚ
  | [] => ("", 0)
  | x :: xs => xs.foldl (fun best p => if best.2 < p.2 then p else best) x

/-- `sorted(weighted_emotions.items(), key=value, reverse=True)` order. -/
def weightDescOrder (a b : String × ℚ) : Prop := b.2 ≤ a.2

instance : DecidableRel weightDescOrder :=
  fun a b => inferInstanceAs (Decidable (b.2 ≤ a.2))

instance : IsTotal (String × ℚ) weightDescOrder := ⟨fun a b => le_total b.2 a.2⟩

instance : IsTrans (String × ℚ) weightDescOrder := ⟨fun _ _ _ h1 h2 => le_trans h2 h1⟩

/-- One emitted bucket record.  The source formats `time_range` as a
two-decimal string; the two bounds are kept here as exact rationals. -/
structure QuintileRecord where
  range_start : ℚ
  range_end : ℚ
  dominant_emotion : String
  emotion_score : ℚ
  top_emotions : List (String × ℚ)
deriving DecidableEq, Repr

/-- The record built for one non-empty (speaker, bucket) group: `none`
exactly when `weighted_emotions` stayed empty (`if weighted_emotions:`). -/
def mkQuintileRecord (conversation_length : ℚ) (q : ℕ) (group : List Segment) :
    Option QuintileRecord :=
  let we := groupWeighted group
  if we.isEmpty then none
  else
    let dom := pyMaxBySnd we
    let qsize := conversation_length / 5
    some { range_start := q * qsize
           range_end := (q + 1) * qsize
           dominant_emotion := dom.1
           emotion_score := dom.2
           top_emotions := (List.insertionSort weightDescOrder we).take 5 }

/-- The five-bucket loop for one speaker: buckets with no segments are
skipped, and records are labeled 1-indexed (`quintile_<q+1>`). -/
def speakerQuintiles (conversation_length : ℚ) (segs : List Segment)
    (speaker : String) : List (ℕ × QuintileRecord) :=
  (List.range 5).filterMap fun (q : ℕ) =>
    let group := segs.filter fun s =>
      decide (s.speaker_id = speaker) &&
      decide (determine_quintile conversation_length s.start_time s.end_time = (q : ℤ))
    if group.isEmpty then none
    else (mkQuintileRecord conversation_length q group).map (fun r => (q + 1, r))

structure QuintileReport where
  conversation_length_seconds : ℚ
  speakers : List (String × List (ℕ × QuintileRecord))
deriving DecidableEq, Repr

/-- `df['speaker_id'].unique()`: speakers in first-appearance order. -/
def uniqueSpeakers (segs : List Segment) : List String :=
  dedupFirst (segs.map (fun s => s.speaker_id))

/-- `SentimentProcessor._analyze_quintiles`. -/
def analyze_quintiles (conversation_length : ℚ) (segs : List Segment) :
    QuintileReport :=
  { conversation_length_seconds := conversation_length
    speakers := (uniqueSpeakers segs).map fun sp =>
      (sp, speakerQuintiles conversation_length segs sp) }

/-- One cell of the flattened table: the column starts at `0.0` and each
slot `i = 1..15` whose name matches overwrites it with that slot's score. -/
def cellValue (seg : Segment) (n : String) : ℚ :=
  seg.emotions.foldl (fun acc e => if e.name = n then e.score else acc) 0

/-- A row of the flattened (streamlined) table. -/
structure Row where
  speaker_id : String
  start_time : ℚ
  end_time : ℚ
  text : String
  quintile : ℤ
  cells : List (String × ℚ)
deriving DecidableEq, Repr

/-- `SentimentProcessor._create_streamlined_data`: one row per segment,
one cell per selected vocabulary emotion. -/
def create_streamlined_data (conversation_length : ℚ) (vocab : List String)
    (segs : List Segment) : List Row :=
  segs.map fun s =>
    { speaker_id := s.speaker_id
      start_time := s.start_time
      end_time := s.end_time
      text := s.text
      quintile := determine_quintile conversation_length s.start_time s.end_time
      cells := vocab.map (fun n => (n, cellValue s n)) }

/-- Everything one call of the engine produces. -/
structure ProcOutput where
  conversation_length : ℚ
  top_sentiments : List String
  table : List Row
  report : QuintileReport
deriving DecidableEq, Repr

/-- `SentimentProcessor.process_sentiment_data` as a pure function of the
payload: `none` models the early `return None` when no segments were
extracted. -/
def process_sentiment_data (payload : Payload) : Option ProcOutput :=
  let data := collectSegments payload
  if data.isEmpty then none
  else
    let df := sortByStart data
    let len := maxEndTime df
    let tops := top_sentiments_of df
    some { conversation_length := len
           top_sentiments := tops
           table := create_streamlined_data len tops df
           report := analyze_quintiles len df }

/-- The instance fields `process_sentiment_data` writes and reads
(`self.conversation_length`, `self.top_sentiments`,
`self.quintile_analysis`); each is written before every read of it
within one call, which is what the determinism claim rests on. -/
structure ProcessorState where
  conversation_length : ℚ
  top_sentiments : List String
  quintile_analysis : Option QuintileReport
deriving DecidableEq, Repr

/-- The call with its instance-state updates made explicit, in source
order: the length is stored, then read to bucket segments; the top
sentiments are stored, then read to build the table; the report is
stored last.  On the no-segments early return the state is untouched. -/
def process_stateful (st : ProcessorState) (payload : Payload) :
    ProcessorState × Option ProcOutput :=
  let data := collectSegments payload
  if data.isEmpty then (st, none)
  else
    let df := sortByStart data
    let st1 : ProcessorState := { st with conversation_length := maxEndTime df }
    let st2 : ProcessorState := { st1 with top_sentiments := top_sentiments_of df }
    let table := create_streamlined_data st2.conversation_length st2.top_sentiments df
    let report := analyze_quintiles st2.conversation_length df
    let st3 : ProcessorState := { st2 with quintile_analysis := some report }
    (st3, some { conversation_length := st2.conversation_length
                 top_sentiments := st2.top_sentiments
                 table := table
                 report := report })

/-- The segments one prosody channel contributes, in traversal order. -/
def prosodySegments (groups : List SpeakerGroup) : List Segment :=
  groups.foldr (fun g acc => g.predictions.map (normalizeSpan g.id) ++ acc) []

/-! ### Concrete inputs used by witnesses and counterexamples -/

/-- The two-segment scenario payload: speaker A, `[0,10]` with
Joy 0.8 / Calm 0.2 and `[10,20]` with Joy 0.4 / Anger 0.6, both on the
prosody channel. -/
def c4payload : Payload :=
  [⟨[⟨some [⟨"A", [⟨0, 10, "", [⟨"Joy", 4/5⟩, ⟨"Calm", 1/5⟩]⟩,
                   ⟨10, 20, "", [⟨"Joy", 2/5⟩, ⟨"Anger", 3/5⟩]⟩]⟩],
      none⟩]⟩]

/-- A zero-duration segment (`start == end`) carrying one emotion. -/
def zdSeg : Segment := ⟨"A", 5, 5, "", [⟨"Joy", 4/5⟩]⟩

/-- A payload whose language channel holds a span, followed by a second
result item whose prosody channel holds a span with the same
`(speaker, start, end)` key. -/
def crossChannelPayload : Payload :=
  [⟨[⟨none, some [⟨"A", [⟨0, 1, "", [⟨"Joy", 1⟩]⟩]⟩]⟩,
     ⟨some [⟨"A", [⟨0, 1, "", [⟨"Anger", 1⟩]⟩]⟩], none⟩]⟩]

/-- A payload whose prosody channel holds the same span twice, and whose
language channel holds two spans with one shared key. -/
def dupPayload : Payload :=
  [⟨[⟨some [⟨"A", [⟨0, 1, "", [⟨"Joy", 1⟩]⟩, ⟨0, 1, "", [⟨"Joy", 1⟩]⟩]⟩],
      some [⟨"B", [⟨2, 3, "", [⟨"Calm", 1⟩]⟩, ⟨2, 3, "", [⟨"Fear", 1⟩]⟩]⟩]⟩]⟩]

/-- A payload carrying a purely numeric emotion name. -/
def numericNamePayload : Payload :=
  [⟨[⟨some [⟨"A", [⟨0, 1, "", [⟨"123", 1⟩]⟩]⟩], none⟩]⟩]

/-! ### The claims -/

/-- Claim C1: for a segment whose times satisfy the data-model invariant
`0 ≤ start ≤ end ≤ conversation_length`, the bucket is the floor of
`midpoint / (length/5)` clamped from 5 to 4 (0 when the length is 0),
and in every case lies in `{0,1,2,3,4}`. -/
theorem determine_quintile_spec (L s e : ℚ)
    (h0 : 0 ≤ s) (hse : s ≤ e) (heL : e ≤ L) :
    (L = 0 → determine_quintile L s e = 0) ∧
    (L ≠ 0 → determine_quintile L s e =
      (if ⌊((s + e) / 2) / (L / 5)⌋ = 5 then 4 else ⌊((s + e) / 2) / (L / 5)⌋)) ∧
    determine_quintile L s e ∈ ({0, 1, 2, 3, 4} : Set ℤ) := by
  by_cases hL : L = 0
  · subst hL
    refine ⟨fun _ => rfl, fun h => absurd rfl h, ?_⟩
    simp [determine_quintile]
  · have hLpos : 0 < L := lt_of_le_of_ne (le_trans (le_trans h0 hse) heL) (Ne.symm hL)
    have hm0 : 0 ≤ (s + e) / 2 := div_nonneg (by linarith) (by norm_num)
    have hq5 : (0 : ℚ) < L / 5 := div_pos hLpos (by norm_num)
    have hmr : 0 ≤ ((s + e) / 2) / (L / 5) := div_nonneg hm0 (le_of_lt hq5)
    have htr : pyTrunc (((s + e) / 2) / (L / 5)) = ⌊((s + e) / 2) / (L / 5)⌋ := by
      simp [pyTrunc, hmr]
    have hub : ((s + e) / 2) / (L / 5) ≤ 5 := by
      rw [div_le_iff₀ hq5]
      have : s + e ≤ 2 * L := by linarith
      linarith
    have hfl : ⌊((s + e) / 2) / (L / 5)⌋ ≤ 5 := by
      have := Int.floor_le_floor hub
      simpa using this
    have hfl0 : 0 ≤ ⌊((s + e) / 2) / (L / 5)⌋ := Int.floor_nonneg.mpr hmr
    have heq : determine_quintile L s e =
        (if ⌊((s + e) / 2) / (L / 5)⌋ = 5 then 4 else ⌊((s + e) / 2) / (L / 5)⌋) := by
      simp only [determine_quintile, if_neg hL, htr]
    refine ⟨fun h => absurd h hL, fun _ => heq, ?_⟩
    rw [heq]
    simp only [Set.mem_insert_iff, Set.mem_singleton_iff]
    by_cases h5 : ⌊((s + e) / 2) / (L / 5)⌋ = 5
    · simp [h5]
    · rw [if_neg h5]
      omega

/-- Witness for C1: the concrete segment `[0,10]` of a 20-second
conversation is assigned bucket 1, inside `{0,1,2,3,4}`. -/
theorem determine_quintile_spec_witness :
    determine_quintile 20 0 10 ∈ ({0, 1, 2, 3, 4} : Set ℤ) ∧
    determine_quintile 20 0 10 = 1 :=
  ⟨(determine_quintile_spec 20 0 10 (by norm_num) (by norm_num) (by norm_num)).2.2,
   by with_unfolding_all decide⟩

/-- Claim C4: on the two-segment scenario, the conversation length is
20, the segments land in buckets 1 and 3, and speaker A's report has
`quintile_2` dominated by Joy at 0.8 and `quintile_4` dominated by
Anger at 0.6. -/
theorem scenario_two_segments :
    ((process_sentiment_data c4payload).map (fun o => o.conversation_length)
        = some 20) ∧
    ((process_sentiment_data c4payload).map (fun o => o.table.map (fun r => r.quintile))
        = some [1, 3]) ∧
    ((process_sentiment_data c4payload).map (fun o =>
        o.report.speakers.map (fun p =>
          (p.1, p.2.map (fun qr => (qr.1, qr.2.dominant_emotion, qr.2.emotion_score)))))
        = some [("A", [(2, "Joy", 4/5), (4, "Anger", 3/5)])]) := by
  refine ⟨?_, ?_, ?_⟩ <;> with_unfolding_all decide

/-- Counterexample to claim C2: a zero-duration segment carrying one
emotion has total duration 0, yet its weighted-emotion map is the
non-empty `[("Joy", 0)]` and its bucket is present in the report (as
`quintile_5` with emotion score 0) rather than omitted. -/
theorem zero_duration_bucket_counterexample :
    totalDuration [zdSeg] = 0 ∧
    groupWeighted [zdSeg] = [("Joy", 0)] ∧
    (analyze_quintiles (maxEndTime [zdSeg]) [zdSeg]).speakers =
      [("A", [(5, { range_start := 4, range_end := 5, dominant_emotion := "Joy",
                    emotion_score := 0, top_emotions := [("Joy", 0)] })])] := by
  refine ⟨?_, ?_, ?_⟩ <;> with_unfolding_all decide

/-- Counterexample to claim C6: when the language channel's span for a
key is processed before the prosody channel's span with the same key
(here, across two result items), the later prosody span is not dropped:
the final table holds two segments with the same
`(speaker_id, start_time, end_time)` key, one from each channel. -/
theorem cross_channel_dedup_counterexample :
    collectSegments crossChannelPayload =
      [⟨"A", 0, 1, "", [⟨"Joy", 1⟩]⟩, ⟨"A", 0, 1, "", [⟨"Anger", 1⟩]⟩] := by
  with_unfolding_all decide

/-- Counterexample to claim C7: a purely numeric emotion name survives
normalization unchanged; the segment table carries the name "123" (the
`Emotion_` relabeling only happens later, inside the aggregation). -/
theorem numeric_name_counterexample :
    collectSegments numericNamePayload = [⟨"A", 0, 1, "", [⟨"123", 1⟩]⟩] ∧
    isDigitString "123" = true := by
  exact ⟨by with_unfolding_all decide, by decide⟩

theorem list_sum_div (l : List ℚ) (t : ℚ) :
    (l.map (fun x => x / t)).sum = l.sum / t := by
  induction l with
  | nil => simp
  | cons x xs ih => simp [ih, add_div]

/-- Claim C3: in a (speaker, bucket) group with positive total duration,
the weights `duration / total_duration` sum to exactly 1. -/
theorem weights_sum_to_one (group : List Segment)
    (h : 0 < totalDuration group) :
    (groupWeights group).sum = 1 := by
  have hmap : groupWeights group =
      (group.map (fun s => s.end_time - s.start_time)).map
        (fun d => d / totalDuration group) := by
    rw [List.map_map]
    apply List.map_congr_left
    intro s _
    simp [weightOf, h]
  rw [hmap, list_sum_div, ← totalDuration, div_self (ne_of_gt h)]

/-- Witness for C3: a group of two ten-second segments has weights
summing to 1. -/
theorem weights_sum_to_one_witness :
    (groupWeights [⟨"A", 0, 10, "", []⟩, ⟨"A", 10, 20, "", []⟩]).sum = 1 :=
  weights_sum_to_one [⟨"A", 0, 10, "", []⟩, ⟨"A", 10, 20, "", []⟩]
    (by with_unfolding_all decide)

theorem foldl_last_match (l : List Emotion) (n : String) (a : ℚ) :
    l.foldl (fun acc e => if e.name = n then e.score else acc) a =
      (((l.filter (fun e => decide (e.name = n))).getLast?).map
        (fun e => e.score)).getD a := by
  induction l generalizing a with
  | nil => simp
  | cons x xs ih =>
    by_cases hx : x.name = n
    · rw [List.foldl_cons, if_pos hx, ih]
      have hfx : (x :: xs).filter (fun e => decide (e.name = n)) =
          x :: xs.filter (fun e => decide (e.name = n)) := by
        simp [List.filter_cons, hx]
      rw [hfx]
      cases hxs : xs.filter (fun e => decide (e.name = n)) with
      | nil => simp
      | cons y ys =>
        have hne : (y :: ys) ≠ ([] : List Emotion) := by simp
        obtain ⟨z, hz⟩ := Option.isSome_iff_exists.mp
          (List.getLast?_isSome.mpr hne)
        rw [List.getLast?_cons_cons, hz]
        simp
    · rw [List.foldl_cons, if_neg hx, ih]
      have hfx : (x :: xs).filter (fun e => decide (e.name = n)) =
          xs.filter (fun e => decide (e.name = n)) := by
        simp [List.filter_cons, hx]
      rw [hfx]

/-- Claim C8: a cell of the flattened table is 0 when no slot of the row
matches the column name, and otherwise carries the score of the last
matching slot in slot order (the highest-indexed match wins); concretely,
with Joy in slots 1 and 2 at scores 0.8 and 0.4, the cell is 0.4, not
the maximum 0.8. -/
theorem table_cell_last_wins (seg : Segment) (n : String) :
    cellValue seg n =
      (((seg.emotions.filter (fun e => decide (e.name = n))).getLast?).map
        (fun e => e.score)).getD 0 ∧
    cellValue ⟨"A", 0, 1, "", [⟨"Joy", 4/5⟩, ⟨"Joy", 2/5⟩]⟩ "Joy" = 2/5 :=
  ⟨foldl_last_match seg.emotions n 0, by with_unfolding_all decide⟩

theorem addWeighted_ne_nil (m : List (String × ℚ)) (n : String) (v : ℚ) :
    addWeighted m n v ≠ [] := by
  unfold addWeighted
  split
  · rename_i hany
    cases m with
    | nil => simp at hany
    | cons x xs => simp
  · simp

theorem addWeighted_snd_zero {m : List (String × ℚ)} {n : String}
    (hm : ∀ p ∈ m, p.2 = 0) : ∀ p ∈ addWeighted m n 0, p.2 = 0 := by
  unfold addWeighted
  split
  · intro p hp
    obtain ⟨q, hq, hpq⟩ := List.mem_map.mp hp
    by_cases h : q.1 = n
    · rw [if_pos h] at hpq
      simp [← hpq, hm q hq]
    · rw [if_neg h] at hpq
      exact hpq ▸ hm q hq
  · intro p hp
    rcases List.mem_append.mp hp with h | h
    · exact hm p h
    · simp at h
      simp [h]

theorem segAddWeighted_snd_zero {m : List (String × ℚ)} (s : Segment)
    (hm : ∀ p ∈ m, p.2 = 0) : ∀ p ∈ segAddWeighted m 0 s, p.2 = 0 := by
  unfold segAddWeighted
  induction s.emotions generalizing m with
  | nil => exact hm
  | cons e es ih =>
    rw [List.foldl_cons]
    exact ih (by simpa using addWeighted_snd_zero hm)

theorem segAddWeighted_eq_nil_iff (m : List (String × ℚ)) (w : ℚ) (s : Segment) :
    segAddWeighted m w s = [] ↔ m = [] ∧ s.emotions = [] := by
  unfold segAddWeighted
  induction s.emotions generalizing m with
  | nil => simp
  | cons e es ih =>
    rw [List.foldl_cons, ih]
    simp [addWeighted_ne_nil]

theorem foldl_segAdd_eq_nil_iff (wf : Segment → ℚ) (group : List Segment)
    (m : List (String × ℚ)) :
    group.foldl (fun acc s => segAddWeighted acc (wf s) s) m = [] ↔
      m = [] ∧ ∀ s ∈ group, s.emotions = [] := by
  induction group generalizing m with
  | nil => simp
  | cons s ss ih =>
    rw [List.foldl_cons, ih, segAddWeighted_eq_nil_iff]
    constructor
    · rintro ⟨⟨h1, h2⟩, h3⟩
      refine ⟨h1, ?_⟩
      intro a ha
      rcases List.mem_cons.mp ha with rfl | ha2
      · exact h2
      · exact h3 a ha2
    · rintro ⟨h1, h2⟩
      simp at h2
      exact ⟨⟨h1, h2.1⟩, h2.2⟩

theorem foldl_segAdd_snd_zero (group : List Segment)
    (m : List (String × ℚ)) (hm : ∀ p ∈ m, p.2 = 0) :
    ∀ p ∈ group.foldl (fun acc s => segAddWeighted acc 0 s) m, p.2 = 0 := by
  induction group generalizing m with
  | nil => exact hm
  | cons s ss ih =>
    rw [List.foldl_cons]
    exact ih _ (segAddWeighted_snd_zero s hm)

/-- Claim C2 as amended: in a (speaker, bucket) group of total duration
0, every weight is 0 and every accumulated weighted score is 0 (and no
division by zero occurs), but the weighted-emotion map is empty — and
the bucket hence omitted — only when no segment of the group carries any
emotion slot; a zero-duration segment carrying emotions yields a bucket
record whose scores are all 0. -/
theorem zero_total_duration_group (group : List Segment)
    (h : totalDuration group = 0) :
    (∀ w ∈ groupWeights group, w = 0) ∧
    (∀ p ∈ groupWeighted group, p.2 = 0) ∧
    (groupWeighted group = [] ↔ ∀ s ∈ group, s.emotions = []) := by
  have hw : weightOf (totalDuration group) = fun _ => 0 := by
    funext s
    simp [weightOf, h]
  refine ⟨?_, ?_, ?_⟩
  · intro w hwmem
    obtain ⟨s, _, hs⟩ := List.mem_map.mp hwmem
    rw [← hs, hw]
  · unfold groupWeighted
    simp only [hw]
    exact foldl_segAdd_snd_zero group [] (by simp)
  · unfold groupWeighted
    simp only [hw]
    simpa using foldl_segAdd_eq_nil_iff (fun _ => 0) group []

/-- Witness for the amended C2: the singleton zero-duration group. -/
theorem zero_total_duration_group_witness :
    totalDuration [zdSeg] = 0 ∧ ∀ p ∈ groupWeighted [zdSeg], p.2 = 0 :=
  ⟨by with_unfolding_all decide,
   (zero_total_duration_group [zdSeg] (by with_unfolding_all decide)).2.1⟩

theorem count_map_name (l : List Emotion) (n : String) :
    (l.map (fun e => e.name)).count n =
      (l.filter (fun e => decide (e.name = n))).length := by
  induction l with
  | nil => rfl
  | cons e es ih =>
    by_cases h : e.name = n
    · simp [List.count_cons, List.filter_cons, h, ih]
    · simp [List.count_cons, List.filter_cons, h, ih]

theorem countName_eq_count (segs : List Segment) (n : String) :
    countName segs n = (flattenNames segs).count n := by
  induction segs with
  | nil => rfl
  | cons s ss ih =>
    show (s.emotions.filter (fun e => decide (e.name = n))).length + countName ss n = _
    rw [ih, ← count_map_name]
    show _ = ((s.emotions.map (fun e => e.name)) ++ flattenNames ss).count n
    rw [List.count_append]

/-- Claim C5: the vocabulary counts every occupied slot of every segment
(a repeated name in one segment counts twice), keeps at most 15 names,
orders them by descending occurrence count, and every dropped name's
count is at most every kept name's count. -/
theorem vocabulary_spec (segs : List Segment) :
    (top_sentiments_of segs).length ≤ 15 ∧
    (∀ n : String, countName segs n = (flattenNames segs).count n) ∧
    top_sentiments_of segs = ((sortedCounts segs).take 15).map (fun p => p.1) ∧
    (((sortedCounts segs).take 15).map (fun p => p.2)).Sorted (fun a b => b ≤ a) ∧
    ∀ q ∈ (sortedCounts segs).take 15, ∀ p ∈ (sortedCounts segs).drop 15,
      p.2 ≤ q.2 := by
  have hs : List.Sorted countDescOrder (sortedCounts segs) :=
    List.sorted_insertionSort countDescOrder (sentiment_counts segs)
  refine ⟨?_, fun n => countName_eq_count segs n, rfl, ?_, ?_⟩
  · have : (top_sentiments_of segs).length =
        min 15 (sortedCounts segs).length := by
      simp [top_sentiments_of]
    rw [this]
    exact min_le_left _ _
  · have htake : ((sortedCounts segs).take 15).Pairwise countDescOrder :=
      List.Pairwise.sublist (List.take_sublist 15 _) hs
    exact List.Pairwise.map (fun (p : String × ℕ) => p.2)
      (fun a b h => h) htake
  · have hsplit : ((sortedCounts segs).take 15 ++
        (sortedCounts segs).drop 15).Pairwise countDescOrder := by
      rw [List.take_append_drop]
      exact hs
    obtain ⟨-, -, hcross⟩ := List.pairwise_append.mp hsplit
    exact fun q hq p hp => hcross q hq p hp

theorem isDigitString_relabel (n : String) :
    isDigitString (relabelNumeric n) = false := by
  unfold relabelNumeric
  split
  · have hpre : ("Emotion_".toList.all Char.isDigit) = false := by decide
    have htl : ∀ s t : String, (s ++ t).toList = s.toList ++ t.toList := by
      intro s t
      simp [String.toList]
    simp only [isDigitString, htl, List.all_append, hpre,
      Bool.false_and, Bool.and_false]
  · rename_i h
    exact Bool.eq_false_iff.mpr h

theorem addWeighted_not_digit {m : List (String × ℚ)} {n : String} (v : ℚ)
    (hm : ∀ p ∈ m, isDigitString p.1 = false)
    (hn : isDigitString n = false) :
    ∀ p ∈ addWeighted m n v, isDigitString p.1 = false := by
  unfold addWeighted
  split
  · intro p hp
    obtain ⟨q, hq, hpq⟩ := List.mem_map.mp hp
    by_cases h : q.1 = n
    · rw [if_pos h] at hpq
      rw [← hpq]
      exact hm q hq
    · rw [if_neg h] at hpq
      exact hpq ▸ hm q hq
  · intro p hp
    rcases List.mem_append.mp hp with h | h
    · exact hm p h
    · simp at h
      rw [h]
      exact hn

theorem segAddWeighted_not_digit {m : List (String × ℚ)} (w : ℚ) (s : Segment)
    (hm : ∀ p ∈ m, isDigitString p.1 = false) :
    ∀ p ∈ segAddWeighted m w s, isDigitString p.1 = false := by
  unfold segAddWeighted
  induction s.emotions generalizing m with
  | nil => exact hm
  | cons e es ih =>
    rw [List.foldl_cons]
    exact ih (addWeighted_not_digit _ hm (isDigitString_relabel e.name))

theorem foldl_segAdd_not_digit (wf : Segment → ℚ) (group : List Segment)
    (m : List (String × ℚ)) (hm : ∀ p ∈ m, isDigitString p.1 = false) :
    ∀ p ∈ group.foldl (fun acc s => segAddWeighted acc (wf s) s) m,
      isDigitString p.1 = false := by
  induction group generalizing m with
  | nil => exact hm
  | cons s ss ih =>
    rw [List.foldl_cons]
    exact ih _ (segAddWeighted_not_digit _ s hm)

/-- Claim C7 as amended: the `Emotion_<value>` relabeling of purely
numeric names happens during quintile aggregation, when weighted
emotions are accumulated — no key of any weighted-emotion map is a pure
digit string — while Segments in the table keep their raw names. -/
theorem aggregation_relabels_numeric (group : List Segment) (p : String × ℚ)
    (hp : p ∈ groupWeighted group) : isDigitString p.1 = false := by
  unfold groupWeighted at hp
  exact foldl_segAdd_not_digit _ group [] (by simp) p hp

/-- Witness for the amended C7: the numeric name "123" shows up in the
weighted map only as the non-numeric "Emotion_123". -/
theorem aggregation_relabels_numeric_witness :
    isDigitString "Emotion_123" = false :=
  aggregation_relabels_numeric [⟨"A", 0, 1, "", [⟨"123", 1⟩]⟩]
    ("Emotion_123", 1) (by with_unfolding_all decide)

theorem keyMatches_append (a b : List Segment) (k : String) (st et : ℚ) :
    keyMatches (a ++ b) k st et = (keyMatches a k st et || keyMatches b k st et) := by
  simp [keyMatches, List.any_append]

theorem foldl_extends {β : Type} (step : List Segment → β → List Segment)
    (hstep : ∀ acc x, ∃ t, step acc x = acc ++ t ∧
      ∀ s ∈ t, keyMatches acc s.speaker_id s.start_time s.end_time = false)
    (l : List β) (data : List Segment) :
    ∃ tail, l.foldl step data = data ++ tail ∧
      ∀ s ∈ tail, keyMatches data s.speaker_id s.start_time s.end_time = false := by
  induction l generalizing data with
  | nil => exact ⟨[], by simp, by simp⟩
  | cons x xs ih =>
    obtain ⟨t0, ht0, ht0k⟩ := hstep data x
    obtain ⟨t1, ht1, ht1k⟩ := ih (data ++ t0)
    refine ⟨t0 ++ t1, ?_, ?_⟩
    · rw [List.foldl_cons, ht0, ht1, List.append_assoc]
    · intro s hsm
      rcases List.mem_append.mp hsm with h | h
      · exact ht0k s h
      · have hk := ht1k s h
        rw [keyMatches_append] at hk
        exact (Bool.or_eq_false_iff.mp hk).1

theorem addLanguageGroups_extends (data : List Segment)
    (gs : List SpeakerGroup) :
    ∃ tail, addLanguageGroups data gs = data ++ tail ∧
      ∀ s ∈ tail, keyMatches data s.speaker_id s.start_time s.end_time = false := by
  unfold addLanguageGroups
  apply foldl_extends
  intro acc g
  apply foldl_extends
  intro acc2 sp
  by_cases h : keyMatches acc2 g.id sp.begin_time sp.end_time
  · exact ⟨[], by simp [h], by simp⟩
  · refine ⟨[normalizeSpan g.id sp], by simp [h], ?_⟩
    intro s hsm
    simp at hsm
    subst hsm
    exact Bool.eq_false_iff.mpr h

/-- Claim C6 as amended: within one result item holding both channels,
the prosody channel is processed first and its segments are kept
untouched; a language-channel span is then appended only when its
`(speaker_id, start, end)` key matches no already-collected segment, so
a language span duplicating a prosody key is dropped entirely, its
scores never merged.  (Prosody spans, by contrast, are appended
unconditionally, so a prosody span processed after a language span with
the same key is not dropped — see the counterexample.) -/
theorem first_channel_wins (data : List Segment) (gs ls : List SpeakerGroup) :
    ∃ tail,
      processResultItem data ⟨some gs, some ls⟩ = addProsodyGroups data gs ++ tail ∧
      ∀ s ∈ tail, keyMatches (addProsodyGroups data gs)
        s.speaker_id s.start_time s.end_time = false :=
  addLanguageGroups_extends (addProsodyGroups data gs) ls

theorem addProsodyGroups_eq (data : List Segment) (gs : List SpeakerGroup) :
    addProsodyGroups data gs = data ++ prosodySegments gs := by
  induction gs generalizing data with
  | nil => simp [addProsodyGroups, prosodySegments]
  | cons g gs ih =>
    have hinner : ∀ (d : List Segment) (l : List Span),
        l.foldl (fun acc2 sp => acc2 ++ [normalizeSpan g.id sp]) d =
          d ++ l.map (normalizeSpan g.id) := by
      intro d l
      induction l generalizing d with
      | nil => simp
      | cons sp sps ihl => simp [ihl]
    have h1 : addProsodyGroups data (g :: gs) =
        addProsodyGroups
          (g.predictions.foldl (fun acc2 sp => acc2 ++ [normalizeSpan g.id sp]) data) gs :=
      rfl
    rw [h1, hinner data g.predictions, ih]
    simp [prosodySegments, List.append_assoc]

/-- Claim C10: the duplicate-key check runs only for language-channel
spans — a language span joins the table only when its key is new (it is
checked against every previously collected segment, earlier language
ones included) — while prosody spans are appended unconditionally, so
two identical prosody spans both reach the table.  The concrete payload
holds the same prosody span twice (both kept) and two language spans
sharing a key (only the first kept). -/
theorem channel_dedup_asymmetry :
    (∀ (data : List Segment) (gs : List SpeakerGroup),
        addProsodyGroups data gs = data ++ prosodySegments gs) ∧
    (∀ (data : List Segment) (gs : List SpeakerGroup) (s : Segment),
        s ∈ addLanguageGroups data gs →
          s ∈ data ∨ keyMatches data s.speaker_id s.start_time s.end_time = false) ∧
    collectSegments dupPayload =
      [⟨"A", 0, 1, "", [⟨"Joy", 1⟩]⟩, ⟨"A", 0, 1, "", [⟨"Joy", 1⟩]⟩,
       ⟨"B", 2, 3, "", [⟨"Calm", 1⟩]⟩] := by
  refine ⟨addProsodyGroups_eq, ?_, by with_unfolding_all decide⟩
  intro data gs s hsm
  obtain ⟨tail, heq, hk⟩ := addLanguageGroups_extends data gs
  rw [heq] at hsm
  rcases List.mem_append.mp hsm with h | h
  · exact Or.inl h
  · exact Or.inr (hk s h)

theorem stateful_output_pure (st : ProcessorState) (p : Payload) :
    (process_stateful st p).2 = process_sentiment_data p := by
  unfold process_stateful process_sentiment_data
  by_cases h : (collectSegments p).isEmpty <;> simp [h]

/-- Claim C9: the engine is deterministic and holds no state that can
influence a run — the outputs (report and flattened table) are the same
from any starting instance state, equal those of the pure pipeline
function, and re-running on the same payload from the post-run state
reproduces them. -/
theorem engine_deterministic (s1 s2 : ProcessorState) (p : Payload) :
    (process_stateful s1 p).2 = (process_stateful s2 p).2 ∧
    (process_stateful s1 p).2 = process_sentiment_data p ∧
    (process_stateful (process_stateful s1 p).1 p).2 = (process_stateful s1 p).2 := by
  refine ⟨?_, stateful_output_pure s1 p, ?_⟩
  · rw [stateful_output_pure, stateful_output_pure]
  · rw [stateful_output_pure, stateful_output_pure]

end Dialogos
